import Mathlib

/-!
# Verification of the IRS-forms network query engine

A shallow embedding of `src/services/networkBuilder.ts` (class `NetworkBuilder`)
together with proofs about its behaviour.  JavaScript `Set`/`Map` objects are
modelled as duplicate-free lists / association lists that preserve insertion
order, which is exactly the iteration order guaranteed by the JS semantics.
Numbers that the engine only ever uses as non-negative counts
(`expansionDepth`, `maxNodesPerExpansion`, `maxTotalNodes`, degrees) are
modelled as `Nat`.
-/

namespace NetworkBuilder

/-- A graph node (`GraphNode` of `src/types.ts`, IRS-forms version).
`node_type` is one of `form | line | index | regulation` and `category`
(`individual | corporation`) is optional — index nodes carry none.  The
`p_*` fields model the nested `properties` object's `full_name`,
`definition` and `text` entries; `full_name`, `definition`, `text` are the
top-level legacy fields.  `val`, `totalVal`, `color`, `baseColor` are the
display fields that `buildNetwork` writes at runtime. -/
structure GraphNode where
  id : String
  name : String
  node_type : String
  category : Option String := none
  p_full_name : Option String := none
  p_definition : Option String := none
  p_text : Option String := none
  full_name : Option String := none
  definition : Option String := none
  text : Option String := none
  val : Option Nat := none
  totalVal : Option Nat := none
  color : Option String := none
  baseColor : Option String := none
deriving Repr, DecidableEq

/-- A graph link (`GraphLink` of `src/types.ts`).  In the source `source` and
`target` are `string | GraphNode`; every use site resolves them with
`typeof link.source === 'string' ? link.source : link.source.id`, so the
embedding stores the resolved endpoint ids directly. -/
structure GraphLink where
  source : String
  target : String
  edge_type : String
deriving Repr, DecidableEq

/-- The slice of `NetworkBuilderState` that `buildNetwork` reads.
(`allowedForms` and `seedNodeIds` are never consulted by the engine.) -/
structure NetworkBuilderState where
  searchTerms : List String
  searchFields : List String
  allowedNodeTypes : List String
  allowedEdgeTypes : List String
  allowedCategories : List String
  expansionDepth : Nat
  maxNodesPerExpansion : Nat
  maxTotalNodes : Nat
deriving Repr, DecidableEq

/-- The `'AND' | 'OR'` search-logic union type. -/
inductive SearchLogic where
  | AND : SearchLogic
  | OR : SearchLogic
deriving Repr, DecidableEq

/-- The `'global' | 'subgraph'` node-ranking-mode union type. -/
inductive RankMode where
  | global : RankMode
  | subgraph : RankMode
deriving Repr, DecidableEq

/-- The returned `FilteredGraph` record. -/
structure FilteredGraph where
  nodes : List GraphNode
  links : List GraphLink
  truncated : Bool
  matchedCount : Nat
deriving Repr, DecidableEq

/-! ## JS collection primitives -/

/-- `Set.add`: append the element unless it is already present (JS `Set`s
iterate in insertion order and ignore re-insertion). -/
def insertUnique (l : List String) (x : String) : List String :=
  if l.contains x then l else l ++ [x]

/-- `new Set(iterable)`: deduplicate, keeping the first occurrence. -/
def jsSetOf (l : List String) : List String :=
  l.foldl insertUnique []

/-- Auxiliary scan for substring containment. -/
def hasSubstrAux (t : List Char) : List Char → Bool
  | [] => t.isPrefixOf []
  | c :: cs => t.isPrefixOf (c :: cs) || hasSubstrAux t cs

/-- JS `String.prototype.includes`: `hasSubstr s t` is true iff `t` occurs
contiguously inside `s` (the empty string occurs in every string). -/
def hasSubstr (s t : String) : Bool :=
  hasSubstrAux t.data s.data

/-- JS `a || b` on two optional strings: `a` wins unless it is absent or the
empty string (the empty string is falsy in JS). -/
def jsOrStr (a b : Option String) : Option String :=
  match a with
  | some s => if s = "" then b else some s
  | none => b

/-- JS `String.prototype.toLowerCase`, modelled character by character
(`Char.toLower` coincides with JS lower-casing on this data). -/
def jsToLower (s : String) : String :=
  ⟨s.data.map Char.toLower⟩

/-- JS `String.prototype.trim`: strip whitespace from both ends. -/
def jsTrim (s : String) : String :=
  ⟨((s.data.dropWhile Char.isWhitespace).reverse.dropWhile
      Char.isWhitespace).reverse⟩

/-! ## Matcher — `searchNodes` -/

/-- The `switch (field)` of `searchNodes`: the value searched for a given
field name.  `NetworkBuilderState.searchFields` is typed
`('name' | 'full_name' | 'definition' | 'text')[]`, so the `default` branch
(custom-property lookup) is unreachable for well-typed queries and is
modelled as absent. -/
def fieldValue (node : GraphNode) (field : String) : Option String :=
  if field = "name" then some node.name
  else if field = "full_name" then jsOrStr node.p_full_name node.full_name
  else if field = "definition" then jsOrStr node.p_definition node.definition
  else if field = "text" then jsOrStr node.p_text node.text
  else none

/-- The `searchableValues` array collected for one node: present field values,
lower-cased, in `searchFields` order. -/
def searchableValues (node : GraphNode) (fields : List String) : List String :=
  fields.filterMap (fun f => (fieldValue node f).map jsToLower)

/-- Whether one node matches the (already normalized) terms under the given
logic: `OR` = some term occurs in some value, `AND` = every term occurs in
some value. -/
def nodeMatches (node : GraphNode) (normalizedTerms : List String)
    (fields : List String) (logic : SearchLogic) : Bool :=
  let vals := searchableValues node fields
  match logic with
  | .OR => normalizedTerms.any (fun term => vals.any (fun v => hasSubstr v term))
  | .AND => normalizedTerms.all (fun term => vals.any (fun v => hasSubstr v term))

/-- `searchNodes(searchTerms, searchFields, logic)`: terms are normalized by
`t.toLowerCase().trim()`, each node of `allNodes` is tested in order, and the
matching ids are returned as a JS `Set` (insertion order, no duplicates). -/
def searchNodes (allNodes : List GraphNode) (searchTerms searchFields : List String)
    (logic : SearchLogic) : List String :=
  let normalizedTerms := searchTerms.map (fun t => jsTrim (jsToLower t))
  jsSetOf ((allNodes.filter
    (fun n => nodeMatches n normalizedTerms searchFields logic)).map (fun n => n.id))

/-! ## AttributeFilter — `filterByAttributes` -/

/-- The per-node test of `filterByAttributes` (and of the inlined seed filter
in `buildNetwork`): an empty allow-list means *no restriction*; with a
non-empty `allowedCategories`, `allowedCategories.includes(node.category)`
is false when `category` is `undefined`. -/
def passesAttributes (node : GraphNode)
    (allowedNodeTypes allowedCategories : List String) : Bool :=
  (allowedNodeTypes.isEmpty || allowedNodeTypes.contains node.node_type) &&
  (allowedCategories.isEmpty ||
    (match node.category with
     | some c => allowedCategories.contains c
     | none => false))

/-- `filterByAttributes(allowedNodeTypes, allowedCategories)`: the ids of the
nodes of the base graph that pass both allow-lists. -/
def filterByAttributes (allNodes : List GraphNode)
    (allowedNodeTypes allowedCategories : List String) : List String :=
  jsSetOf ((allNodes.filter
    (fun n => passesAttributes n allowedNodeTypes allowedCategories)).map (fun n => n.id))

/-! ## GraphIndex — the adjacency map -/

/-- The adjacency map built in the constructor: for each link, in list order,
`{neighborId: target, edgeType}` is pushed onto the source's list and
`{neighborId: source, edgeType}` onto the target's list (a self-loop is
pushed twice).  `adjacency links v` is the resulting per-node list, and an
id that occurs in no link gets `[]` (the `|| []` default). -/
def adjacency (links : List GraphLink) (nodeId : String) : List (String × String) :=
  (links.map (fun l =>
    (if l.source = nodeId then [(l.target, l.edge_type)] else []) ++
    (if l.target = nodeId then [(l.source, l.edge_type)] else []))).flatten

/-! ## Expander — `expandFromSeeds` -/

/-- The per-frontier-node neighbor list admitted in one BFS step: fetch the
adjacency list, filter by edge type *unless `allowedEdgeTypes` is empty*
(empty = no filtering), then `slice(0, maxNeighborsPerNode)` *only when
`maxNeighborsPerNode > 0`* (zero or less = no cap). -/
def limitedNeighbors (links : List GraphLink) (allowedEdgeTypes : List String)
    (maxNeighborsPerNode : Nat) (nodeId : String) : List (String × String) :=
  let neighbors := adjacency links nodeId
  let filteredNeighbors :=
    if allowedEdgeTypes.isEmpty then neighbors
    else neighbors.filter (fun n => allowedEdgeTypes.contains n.2)
  if maxNeighborsPerNode > 0 then filteredNeighbors.take maxNeighborsPerNode
  else filteredNeighbors

/-- Processing one frontier node: each limited neighbor not yet in `expanded`
is appended to both `expanded` and the next layer. -/
def expandStep (links : List GraphLink) (allowedEdgeTypes : List String)
    (maxNeighborsPerNode : Nat) (acc : List String × List String)
    (nodeId : String) : List String × List String :=
  (limitedNeighbors links allowedEdgeTypes maxNeighborsPerNode nodeId).foldl
    (fun acc2 nb =>
      if acc2.1.contains nb.1 then acc2
      else (acc2.1 ++ [nb.1], acc2.2 ++ [nb.1]))
    acc

/-- The `for (let i = 0; i < depth; i++)` loop: run one layer, stop early when
the next layer is empty. -/
def expandLayers (links : List GraphLink) (allowedEdgeTypes : List String)
    (maxNeighborsPerNode : Nat) :
    Nat → List String → List String → List String
  | 0, expanded, _ => expanded
  | depth + 1, expanded, currentLayer =>
    let step := currentLayer.foldl
      (expandStep links allowedEdgeTypes maxNeighborsPerNode) (expanded, [])
    if step.2.isEmpty then step.1
    else expandLayers links allowedEdgeTypes maxNeighborsPerNode depth step.1 step.2

/-- `expandFromSeeds(seedIds, depth, maxNeighborsPerNode, allowedEdgeTypes)`:
breadth-first expansion, seeds included, visited-set dedup. -/
def expandFromSeeds (links : List GraphLink) (seedIds : List String) (depth : Nat)
    (maxNeighborsPerNode : Nat) (allowedEdgeTypes : List String) : List String :=
  expandLayers links allowedEdgeTypes maxNeighborsPerNode depth
    (jsSetOf seedIds) (jsSetOf seedIds)

/-! ## QueryEngine — `buildNetwork`, step by step -/

/-- Step 1 guard: a search is requested iff both `searchTerms` and
`searchFields` are non-empty. -/
def searchActive (st : NetworkBuilderState) : Bool :=
  !st.searchTerms.isEmpty && !st.searchFields.isEmpty

/-- The seed set of Step 1 (empty when no search is active — the engine then
never consults it). -/
def seedIds (allNodes : List GraphNode) (st : NetworkBuilderState)
    (logic : SearchLogic) : List String :=
  searchNodes allNodes st.searchTerms st.searchFields logic

/-- Steps 1b/4: the candidate set before the seed filter — the expansion of the
seeds when `expansionDepth > 0`, a copy of the seeds when it is `0`, and all
node ids of the base graph when no search is active. -/
def rawCandidates (allNodes : List GraphNode) (allLinks : List GraphLink)
    (st : NetworkBuilderState) (logic : SearchLogic) : List String :=
  if searchActive st then
    if st.expansionDepth > 0 then
      expandFromSeeds allLinks (seedIds allNodes st logic) st.expansionDepth
        st.maxNodesPerExpansion st.allowedEdgeTypes
    else jsSetOf (seedIds allNodes st logic)
  else jsSetOf (allNodes.map (fun n => n.id))

/-- The inlined per-seed attribute test of Step 2: look the id up in
`allNodes` (`find` returns the first node with that id; a missing id fails),
then apply the same empty-means-allow-all type/category test as
`filterByAttributes`. -/
def seedPassesFilter (allNodes : List GraphNode) (st : NetworkBuilderState)
    (id : String) : Bool :=
  match allNodes.find? (fun n => n.id = id) with
  | none => false
  | some node => passesAttributes node st.allowedNodeTypes st.allowedCategories

/-- `seedsAfterFilter` of Step 2: the seeds that pass the attribute test. -/
def filteredSeeds (allNodes : List GraphNode) (st : NetworkBuilderState)
    (logic : SearchLogic) : List String :=
  (seedIds allNodes st logic).filter (seedPassesFilter allNodes st)

/-- Step 2: when a search is active and at least one of the two allow-lists is
non-empty, keep a candidate iff it is a filtered seed or not a seed at all;
otherwise the candidates pass through unchanged. -/
def candidateIds (allNodes : List GraphNode) (allLinks : List GraphLink)
    (st : NetworkBuilderState) (logic : SearchLogic) : List String :=
  let cands := rawCandidates allNodes allLinks st logic
  if searchActive st &&
      (!st.allowedNodeTypes.isEmpty || !st.allowedCategories.isEmpty) then
    cands.filter (fun id =>
      (filteredSeeds allNodes st logic).contains id ||
      !(seedIds allNodes st logic).contains id)
  else cands

/-! ### JS `Map<string, GraphNode>` built by insertion -/

/-- `map.set(n.id, n)`: replace the value in place when the key exists,
append a new entry otherwise (JS `Map`s iterate in key-insertion order). -/
def mapInsert (m : List (String × GraphNode)) (n : GraphNode) :
    List (String × GraphNode) :=
  if m.any (fun p => p.1 = n.id) then
    m.map (fun p => if p.1 = n.id then (p.1, n) else p)
  else m ++ [(n.id, n)]

/-- The `candidateNodeMap` / `selectedNodeMap` construction: walk `allNodes`
and insert every node whose id is in `ids`. -/
def nodeMapFor (allNodes : List GraphNode) (ids : List String) :
    List (String × GraphNode) :=
  allNodes.foldl (fun m n => if ids.contains n.id then mapInsert m n else m) []

/-- Step 4: `candidateLinks` — base links whose edge type passes the
allow-list (empty = allow all) and whose two endpoints are keys of the
candidate node map. -/
def candidateLinks (allNodes : List GraphNode) (allLinks : List GraphLink)
    (st : NetworkBuilderState) (candIds : List String) : List GraphLink :=
  let keys := (nodeMapFor allNodes candIds).map (fun p => p.1)
  allLinks.filter (fun l =>
    (st.allowedEdgeTypes.isEmpty || st.allowedEdgeTypes.contains l.edge_type) &&
    keys.contains l.source && keys.contains l.target)

/-- Step 5: the set of ids touched by the candidate links (source pushed
before target, link by link). -/
def nodesWithEdges (clinks : List GraphLink) : List String :=
  clinks.foldl (fun s l => insertUnique (insertUnique s l.source) l.target) []

/-- Step 5: `connectedNodeIds` — candidate nodes that have at least one
candidate edge, in candidate-map (= base-graph) order. -/
def connectedIds (allNodes : List GraphNode) (allLinks : List GraphLink)
    (st : NetworkBuilderState) (logic : SearchLogic) : List String :=
  let candIds := candidateIds allNodes allLinks st logic
  let candidateNodes := (nodeMapFor allNodes candIds).map (fun p => p.2)
  let touched := nodesWithEdges (candidateLinks allNodes allLinks st candIds)
  jsSetOf ((candidateNodes.filter (fun n => touched.contains n.id)).map (fun n => n.id))

/-! ### RankTruncator -/

/-- Insert `x` into an (descending-by-`key`) accumulator after every element of
equal or larger key.  This is the denotation of the JS stable
`sort((a, b) => key(b) - key(a))`: descending by key, ties in original
order. -/
def insertDesc (key : String → Nat) (x : String) : List String → List String
  | [] => [x]
  | y :: ys => if key x ≤ key y then y :: insertDesc key x ys else x :: y :: ys

/-- Stable descending sort by `key` (insertion sort, processing the input left
to right). -/
def sortDescBy (key : String → Nat) (l : List String) : List String :=
  l.foldl (fun acc x => insertDesc key x acc) []

/-- Global degree: the length of a node's adjacency list in the entire base
graph (both directions, parallel edges counted separately). -/
def globalDegree (allLinks : List GraphLink) (id : String) : Nat :=
  (adjacency allLinks id).length

/-- `selectTopNodesByDegree(nodeIds, maxNodes)`: rank the ids by global
degree (stable descending sort) and take the first `maxNodes`. -/
def selectTopNodesByDegree (allLinks : List GraphLink) (nodeIds : List String)
    (maxNodes : Nat) : List String :=
  (sortDescBy (globalDegree allLinks) nodeIds).take maxNodes

/-- Subgraph degree: the number of candidate-link endpoints equal to `id`. -/
def subgraphDegree (clinks : List GraphLink) (id : String) : Nat :=
  clinks.foldl (fun d l =>
    d + (if l.source = id then 1 else 0) + (if l.target = id then 1 else 0)) 0

/-- The subgraph-mode branch of Step 6: keep only ids with a recorded degree
(ids touched by some candidate link), stable-sort descending by subgraph
degree, take the first `maxTotalNodes`. -/
def subgraphTopNodes (clinks : List GraphLink) (ids : List String)
    (maxNodes : Nat) : List String :=
  (sortDescBy (subgraphDegree clinks)
    (ids.filter (fun id =>
      clinks.any (fun l => l.source = id || l.target = id)))).take maxNodes

/-- Step 6: the final id set — the connected ids, ranked and truncated when
their number exceeds `maxTotalNodes`. -/
def finalIds (allNodes : List GraphNode) (allLinks : List GraphLink)
    (st : NetworkBuilderState) (logic : SearchLogic) (mode : RankMode) :
    List String :=
  let connected := connectedIds allNodes allLinks st logic
  if connected.length > st.maxTotalNodes then
    match mode with
    | .subgraph =>
      subgraphTopNodes
        (candidateLinks allNodes allLinks st (candidateIds allNodes allLinks st logic))
        connected st.maxTotalNodes
    | .global => selectTopNodesByDegree allLinks connected st.maxTotalNodes
  else connected

/-! ### Step 7/8 — final links, display-field mutation, result assembly -/

/-- Step 7: the returned links — candidate links with both endpoints among the
selected (final) node-map keys. -/
def finalLinks (allNodes : List GraphNode) (allLinks : List GraphLink)
    (st : NetworkBuilderState) (logic : SearchLogic) (mode : RankMode) :
    List GraphLink :=
  let candIds := candidateIds allNodes allLinks st logic
  let clinks := candidateLinks allNodes allLinks st candIds
  let keys := (nodeMapFor allNodes (finalIds allNodes allLinks st logic mode)).map
    (fun p => p.1)
  clinks.filter (fun l => keys.contains l.source && keys.contains l.target)

/-- Step 8 degree: `nodeDegree` counts, over the final links, how often an id
occurs as an endpoint; `node.val = nodeDegree.get(node.id) || 1` turns a zero
count into 1. -/
def displayVal (links : List GraphLink) (id : String) : Nat :=
  let d := subgraphDegree links id
  if d = 0 then 1 else d

/-- The first Step 8 mutation: `node.val = degree; node.totalVal = node.val`. -/
def setVal (links : List GraphLink) (n : GraphNode) : GraphNode :=
  { n with val := some (displayVal links n.id),
           totalVal := some (displayVal links n.id) }

/-- The color written by Step 8.  In the source the color is an `rgb(...)`
string obtained from one of four per-type gradients evaluated at
`Math.pow(val / maxVal, 0.6)` — floating-point arithmetic that has no exact
counterpart here, so the gradient value is represented symbolically by the
scale name and its two inputs; the fallback branch is the literal
`'#AFBBE8'` of the source.  No claim concerns concrete color strings. -/
def nodeColor (node_type : String) (val maxVal : Nat) : String :=
  if node_type = "form" then s!"formColorScale {val} {maxVal}"
  else if node_type = "line" then s!"lineColorScale {val} {maxVal}"
  else if node_type = "index" then s!"indexColorScale {val} {maxVal}"
  else if node_type = "regulation" then s!"regulationColorScale {val} {maxVal}"
  else "#AFBBE8"

/-- The second Step 8 mutation: `node.color = node.baseColor = color`. -/
def setColor (maxVal : Nat) (n : GraphNode) : GraphNode :=
  let c := nodeColor n.node_type (n.val.getD 1) maxVal
  { n with color := some c, baseColor := some c }

/-- `Math.max(...nodes.map(n => n.val || 1), 1)`. -/
def maxValOf (nodes : List GraphNode) : Nat :=
  (nodes.map (fun n => n.val.getD 1)).foldl max 1

/-- The node array of the result after both Step 8 mutations. -/
def resultNodes (allNodes : List GraphNode) (allLinks : List GraphLink)
    (st : NetworkBuilderState) (logic : SearchLogic) (mode : RankMode) :
    List GraphNode :=
  let selected := (nodeMapFor allNodes (finalIds allNodes allLinks st logic mode)).map
    (fun p => p.2)
  let links := finalLinks allNodes allLinks st logic mode
  let withVal := selected.map (setVal links)
  withVal.map (setColor (maxValOf withVal))

/-- The Step 8 mutations hit the node *objects* of the base graph through the
`selectedNodeMap` aliases: for each selected id, the map holds (and the
engine mutates) the last element of `allNodes` carrying that id.  This
function rebuilds the post-call `allNodes` array: the last occurrence of an
id is replaced by its mutated version when one exists. -/
def updateNodes (updated : List GraphNode) : List GraphNode → List GraphNode
  | [] => []
  | n :: rest =>
    (if rest.any (fun m => m.id = n.id) then n
     else
       match updated.find? (fun u => u.id = n.id) with
       | some u => u
       | none => n) :: updateNodes updated rest

/-- `buildNetwork(state, searchLogic, nodeRankingMode)`.  The first component
is the returned `FilteredGraph`; the second is the base-graph node array
*after* the call (the engine mutates the display fields of the nodes it
returns, which alias into the base graph). -/
def buildNetwork (allNodes : List GraphNode) (allLinks : List GraphLink)
    (st : NetworkBuilderState) (logic : SearchLogic) (mode : RankMode) :
    FilteredGraph × List GraphNode :=
  if searchActive st && (seedIds allNodes st logic).isEmpty then
    ({ nodes := [], links := [], truncated := false, matchedCount := 0 }, allNodes)
  else
    let nodes := resultNodes allNodes allLinks st logic mode
    ({ nodes := nodes,
       links := finalLinks allNodes allLinks st logic mode,
       truncated := decide ((connectedIds allNodes allLinks st logic).length > st.maxTotalNodes),
       matchedCount := (connectedIds allNodes allLinks st logic).length },
     updateNodes nodes allNodes)

/-! ## Concrete fixtures

A three-node base graph used to evaluate the engine on closed inputs:
a `form` node `A` (category `individual`), and two category-less `index`
nodes `B` and `C`, linked in a chain `A — B — C` by `belongs_to` edges. -/

/-- Fixture: form node `A`, name `alpha`, category `individual`. -/
def nodeA : GraphNode :=
  { id := "A", name := "alpha", node_type := "form", category := some "individual" }

/-- Fixture: index node `B`, name `albatross`, no category. -/
def nodeB : GraphNode := { id := "B", name := "albatross", node_type := "index" }

/-- Fixture: index node `C`, name `citrus`, no category. -/
def nodeC : GraphNode := { id := "C", name := "citrus", node_type := "index" }

/-- Fixture: the base node list `[A, B, C]`. -/
def baseNodes : List GraphNode := [nodeA, nodeB, nodeC]

/-- Fixture: the base link list `A — B`, `B — C` (edge type `belongs_to`). -/
def baseLinks : List GraphLink :=
  [{ source := "A", target := "B", edge_type := "belongs_to" },
   { source := "B", target := "C", edge_type := "belongs_to" }]

/-- Fixture query: search `"al"` in `name` (matches `A` and `B`), no attribute
filter, empty `allowedEdgeTypes`, `expansionDepth = 0`. -/
def stDepth0 : NetworkBuilderState :=
  { searchTerms := ["al"], searchFields := ["name"],
    allowedNodeTypes := [], allowedEdgeTypes := [], allowedCategories := [],
    expansionDepth := 0, maxNodesPerExpansion := 5, maxTotalNodes := 10 }

/-- Fixture query: search `"alpha"` in `name` (matches only `A`), node-type
allow-list `["line"]` that the seed `A` fails, expansion depth 2 over
`belongs_to` edges. -/
def stSeedsFail : NetworkBuilderState :=
  { searchTerms := ["alpha"], searchFields := ["name"],
    allowedNodeTypes := ["line"], allowedEdgeTypes := ["belongs_to"],
    allowedCategories := [],
    expansionDepth := 2, maxNodesPerExpansion := 5, maxTotalNodes := 10 }

/-- The fields of a node other than the runtime display fields
(`val`, `totalVal`, `color`, `baseColor`): identity, label, type, category
and all searchable text fields. -/
def coreFields (n : GraphNode) :
    String × String × String × Option String × Option String × Option String ×
      Option String × Option String × Option String × Option String :=
  (n.id, n.name, n.node_type, n.category, n.p_full_name, n.p_definition,
   n.p_text, n.full_name, n.definition, n.text)

/-! ## Basic lemmas about the JS `Set` model -/

theorem contains_iff {l : List String} {x : String} :
    l.contains x = true ↔ x ∈ l :=
  List.elem_iff

theorem mem_insertUnique {l : List String} {x y : String} :
    y ∈ insertUnique l x ↔ y ∈ l ∨ y = x := by
  unfold insertUnique
  by_cases hm : x ∈ l
  · rw [if_pos (contains_iff.mpr hm)]
    exact ⟨Or.inl, fun h => h.elim id (fun e => e ▸ hm)⟩
  · rw [if_neg (fun hcc => hm (contains_iff.mp hcc))]
    simp

theorem mem_foldl_insertUnique {l : List String} {acc : List String} {y : String} :
    y ∈ l.foldl insertUnique acc ↔ y ∈ acc ∨ y ∈ l := by
  induction l generalizing acc with
  | nil => simp
  | cons x xs ih =>
    simp only [List.foldl_cons, ih, mem_insertUnique, List.mem_cons]
    tauto

theorem mem_jsSetOf {l : List String} {y : String} :
    y ∈ jsSetOf l ↔ y ∈ l := by
  unfold jsSetOf
  simp [mem_foldl_insertUnique]

theorem nodup_insertUnique {l : List String} (x : String) (h : l.Nodup) :
    (insertUnique l x).Nodup := by
  unfold insertUnique
  by_cases hm : x ∈ l
  · rwa [if_pos (contains_iff.mpr hm)]
  · rw [if_neg (fun hcc => hm (contains_iff.mp hcc))]
    simp [List.nodup_append, h, hm]

theorem nodup_foldl_insertUnique {l acc : List String} (h : acc.Nodup) :
    (l.foldl insertUnique acc).Nodup := by
  induction l generalizing acc with
  | nil => exact h
  | cons x xs ih => exact ih (nodup_insertUnique x h)

theorem nodup_jsSetOf (l : List String) : (jsSetOf l).Nodup :=
  nodup_foldl_insertUnique List.nodup_nil

/-! ## C1 — attribute-filter semantics -/

theorem passesAttributes_iff {n : GraphNode} {types cats : List String} :
    passesAttributes n types cats = true ↔
      (types = [] ∨ n.node_type ∈ types) ∧
      (cats = [] ∨ ∃ c, n.category = some c ∧ c ∈ cats) := by
  unfold passesAttributes
  cases hcat : n.category with
  | none =>
    simp [List.isEmpty_iff, contains_iff]
  | some c =>
    simp [List.isEmpty_iff, contains_iff]

/-- C1 counterexample: with `allowedTypes = ∅` and
`allowedCategories = ["individual"]`, the filter passes the form node `A`
(whose category is `individual`, hence not category-agnostic), so
`filterIds(ids, ∅, anyCategories)` is *not* empty and an empty `allowedTypes`
does not block-all. -/
theorem filterByAttributes_empty_types_passes :
    filterByAttributes [nodeA] [] ["individual"] = ["A"] ∧
    nodeA.category = some "individual" ∧
    nodeA.node_type ∉ ([] : List String) := by
  refine ⟨by decide, by decide, by decide⟩

/-- C1 (amended): the attribute filter passes a node iff its type is in
`allowedTypes` *or `allowedTypes` is empty*, and its category is in
`allowedCategories` *or `allowedCategories` is empty* — an empty allow-list
means "no restriction in that dimension" (allow-all), not block-all; and a
node without a category fails a non-empty category filter (there is no
category-agnostic bypass). -/
theorem filterByAttributes_mem_iff :
    ∀ (allNodes : List GraphNode) (types cats : List String) (id : String),
      id ∈ filterByAttributes allNodes types cats ↔
        ∃ n ∈ allNodes, n.id = id ∧
          (types = [] ∨ n.node_type ∈ types) ∧
          (cats = [] ∨ ∃ c, n.category = some c ∧ c ∈ cats) := by
  intro allNodes types cats id
  unfold filterByAttributes
  rw [mem_jsSetOf]
  simp only [List.mem_map, List.mem_filter]
  constructor
  · rintro ⟨n, ⟨hn, hp⟩, rfl⟩
    exact ⟨n, hn, rfl, passesAttributes_iff.mp hp⟩
  · rintro ⟨n, hn, rfl, hprop⟩
    exact ⟨n, ⟨hn, passesAttributes_iff.mpr hprop⟩, rfl⟩

/-! ## C6 — `searchNodes` on empty terms / empty fields -/

/-- C6 counterexample: with `AND` logic and empty `searchTerms`, the
universal quantification over terms is vacuously true, so *every* node
matches — `searchNodes` returns the whole node set, not the empty set. -/
theorem searchNodes_empty_terms_and_matches_all :
    searchNodes [nodeA] [] ["name"] SearchLogic.AND = ["A"] ∧
    searchNodes [nodeA] [] ["name"] SearchLogic.AND ≠ [] := by
  refine ⟨by decide, by decide⟩

theorem jsSetOf_nil : jsSetOf [] = [] := rfl

theorem any_false_eq_false (l : List String) : (l.any fun _ => false) = false := by
  simp

/-- C6 (amended): with `OR` logic, empty `terms` or empty `fields` yields an
empty match set, and with `AND` logic empty `fields` yields an empty match
set when `terms` is non-empty; but with `AND` logic and empty `terms` the
match is vacuous and `searchNodes` returns every node id. -/
theorem searchNodes_empty_inputs :
    ∀ (allNodes : List GraphNode) (terms fields : List String) (logic : SearchLogic),
      (logic = SearchLogic.OR → terms = [] ∨ fields = [] →
        searchNodes allNodes terms fields logic = []) ∧
      (fields = [] → terms ≠ [] → searchNodes allNodes terms fields logic = []) ∧
      (logic = SearchLogic.AND → terms = [] →
        searchNodes allNodes terms fields logic = jsSetOf (allNodes.map (fun n => n.id))) := by
  intro allNodes terms fields logic
  refine ⟨?_, ?_, ?_⟩
  · rintro rfl (rfl | rfl)
    · simp [searchNodes, nodeMatches, jsSetOf_nil]
    · simp [searchNodes, nodeMatches, searchableValues, any_false_eq_false, jsSetOf_nil]
  · rintro rfl hterms
    cases logic with
    | OR => simp [searchNodes, nodeMatches, searchableValues, any_false_eq_false, jsSetOf_nil]
    | AND =>
      obtain ⟨t, rest, rfl⟩ := List.exists_cons_of_ne_nil hterms
      simp [searchNodes, nodeMatches, searchableValues, jsSetOf_nil]
  · rintro rfl rfl
    simp [searchNodes, nodeMatches]

/-- Witness for `searchNodes_empty_inputs` at concrete inputs. -/
theorem searchNodes_empty_inputs_witness :
    searchNodes [nodeA] [] [] SearchLogic.OR = [] ∧
    searchNodes [nodeA] ["zzz"] [] SearchLogic.AND = [] ∧
    searchNodes [nodeA] [] ["name"] SearchLogic.AND =
      jsSetOf ([nodeA].map (fun n => n.id)) := by
  refine ⟨?_, ?_, ?_⟩
  · exact (searchNodes_empty_inputs [nodeA] [] [] SearchLogic.OR).1 rfl (Or.inl rfl)
  · exact (searchNodes_empty_inputs [nodeA] ["zzz"] [] SearchLogic.AND).2.1 rfl (by decide)
  · exact (searchNodes_empty_inputs [nodeA] [] ["name"] SearchLogic.AND).2.2 rfl rfl

/-! ## C2 / C7 — expansion -/

theorem adjacency_edge_mem {links : List GraphLink} {v : String}
    {p : String × String} (hp : p ∈ adjacency links v) :
    ∃ l ∈ links, l.edge_type = p.2 := by
  simp only [adjacency, List.mem_flatten, List.mem_map] at hp
  obtain ⟨sub, ⟨l, hl, rfl⟩, hpsub⟩ := hp
  refine ⟨l, hl, ?_⟩
  rcases List.mem_append.mp hpsub with h | h <;>
  · split at h
    · simp only [List.mem_singleton] at h
      rw [h]
    · simp at h

theorem limitedNeighbors_nil_congr {links : List GraphLink} {ets : List String}
    (h : ∀ l ∈ links, l.edge_type ∈ ets) (maxN : Nat) (v : String) :
    limitedNeighbors links [] maxN v = limitedNeighbors links ets maxN v := by
  unfold limitedNeighbors
  cases ets with
  | nil => rfl
  | cons e rest =>
    have hmem : ∀ a ∈ adjacency links v,
        (decide (a.2 = e) || decide (a.2 ∈ rest)) = true := by
      intro a ha
      obtain ⟨l, hl, hle⟩ := adjacency_edge_mem ha
      have hmem2 : a.2 ∈ e :: rest := hle ▸ h l hl
      rcases List.mem_cons.mp hmem2 with h1 | h1 <;> simp [h1]
    simp [List.filter_eq_self.mpr hmem]

theorem expandStep_nil_congr {links : List GraphLink} {ets : List String}
    (h : ∀ l ∈ links, l.edge_type ∈ ets) (maxN : Nat) :
    expandStep links [] maxN = expandStep links ets maxN := by
  funext acc v
  unfold expandStep
  rw [limitedNeighbors_nil_congr h]

theorem expandLayers_nil_congr {links : List GraphLink} {ets : List String}
    (h : ∀ l ∈ links, l.edge_type ∈ ets) (maxN : Nat) :
    ∀ (depth : Nat) (expanded layer : List String),
      expandLayers links [] maxN depth expanded layer =
        expandLayers links ets maxN depth expanded layer := by
  intro depth
  induction depth with
  | zero => intro expanded layer; rfl
  | succ d ih =>
    intro expanded layer
    simp only [expandLayers, expandStep_nil_congr h, ih]

/-- C2 counterexample: on the chain `A — B — C` with seeds `{A}`, depth 1 and
empty `allowedEdgeTypes`, expansion returns `{A, B}` — strictly more than the
seed set, because an empty `allowedEdgeTypes` disables the edge-type filter
instead of blocking all edges. -/
theorem expandFromSeeds_empty_types_grows :
    expandFromSeeds baseLinks ["A"] 1 5 [] = ["A", "B"] ∧
    expandFromSeeds baseLinks ["A"] 1 5 [] ≠ ["A"] := by
  refine ⟨by decide, by decide⟩

/-- C2 (amended): an empty `allowedEdgeTypes` means *all* edge types are
traversable, not none: expansion with an empty allow-list coincides with
expansion under any allow-list that covers every edge type of the graph. -/
theorem expandFromSeeds_empty_eq_all_types :
    ∀ (links : List GraphLink) (seeds : List String) (depth maxN : Nat)
      (ets : List String),
      (∀ l ∈ links, l.edge_type ∈ ets) →
      expandFromSeeds links seeds depth maxN [] =
        expandFromSeeds links seeds depth maxN ets := by
  intro links seeds depth maxN ets h
  unfold expandFromSeeds
  exact expandLayers_nil_congr h maxN depth _ _

/-- Witness for `expandFromSeeds_empty_eq_all_types` on the fixture graph. -/
theorem expandFromSeeds_empty_eq_all_types_witness :
    expandFromSeeds baseLinks ["A"] 1 5 [] =
      expandFromSeeds baseLinks ["A"] 1 5 ["belongs_to"] :=
  expandFromSeeds_empty_eq_all_types baseLinks ["A"] 1 5 ["belongs_to"] (by decide)

/-- C7 counterexample: with `maxNeighborsPerStep = 0` the per-node cap is
*disabled* (`maxNeighborsPerNode > 0` guards the `slice`), so a frontier node
admits all of its filtered neighbors instead of at most zero of them:
expansion from `{A}` still reaches `B`. -/
theorem expandFromSeeds_zero_cap_unlimited :
    expandFromSeeds baseLinks ["A"] 1 0 ["belongs_to"] = ["A", "B"] ∧
    expandFromSeeds baseLinks ["A"] 1 0 ["belongs_to"] ≠ ["A"] := by
  refine ⟨by decide, by decide⟩

/-- C7 (amended): for every *positive* `maxNeighborsPerStep`, the list of
neighbors a frontier node admits in one BFS step (`limitedNeighbors`, the
list `expandStep` processes for that node) has length at most
`maxNeighborsPerStep`; the value zero instead disables the cap. -/
theorem limitedNeighbors_length_le :
    ∀ (links : List GraphLink) (ets : List String) (maxN : Nat) (v : String),
      0 < maxN → (limitedNeighbors links ets maxN v).length ≤ maxN := by
  intro links ets maxN v h
  unfold limitedNeighbors
  rw [if_pos h]
  exact List.length_take_le maxN _

/-- Witness for `limitedNeighbors_length_le`: node `B` has two `belongs_to`
neighbors in the fixture graph, and with cap 1 only one is admitted. -/
theorem limitedNeighbors_length_le_witness :
    (limitedNeighbors baseLinks ["belongs_to"] 1 "B").length ≤ 1 :=
  limitedNeighbors_length_le baseLinks ["belongs_to"] 1 "B" (by decide)

/-! ## C8 — the stable descending sort behind truncation -/

theorem insertDesc_perm (key : String → Nat) (x : String) (l : List String) :
    (insertDesc key x l).Perm (x :: l) := by
  induction l with
  | nil => exact List.Perm.refl _
  | cons y ys ih =>
    unfold insertDesc
    by_cases hk : key x ≤ key y
    · rw [if_pos hk]
      exact ((ih.cons y).trans (List.Perm.swap x y ys))
    · rw [if_neg hk]

theorem insertDesc_pairwise (key : String → Nat) (x : String) {l : List String}
    (h : l.Pairwise (fun a b => key b ≤ key a)) :
    (insertDesc key x l).Pairwise (fun a b => key b ≤ key a) := by
  induction l with
  | nil => simp [insertDesc]
  | cons y ys ih =>
    rw [List.pairwise_cons] at h
    obtain ⟨hy, hys⟩ := h
    unfold insertDesc
    by_cases hk : key x ≤ key y
    · rw [if_pos hk, List.pairwise_cons]
      refine ⟨?_, ih hys⟩
      intro z hz
      rcases List.mem_cons.mp ((insertDesc_perm key x ys).mem_iff.mp hz) with rfl | hz3
      · exact hk
      · exact hy z hz3
    · rw [if_neg hk, List.pairwise_cons]
      refine ⟨?_, List.pairwise_cons.mpr ⟨hy, hys⟩⟩
      intro z hz
      rcases List.mem_cons.mp hz with rfl | hz2
      · exact Nat.le_of_lt (Nat.lt_of_not_le hk)
      · exact Nat.le_trans (hy z hz2) (Nat.le_of_lt (Nat.lt_of_not_le hk))

theorem insertDesc_filter (key : String → Nat) (x : String) {l : List String}
    (k : Nat) (h : l.Pairwise (fun a b => key b ≤ key a)) :
    (insertDesc key x l).filter (fun v => key v == k) =
      if key x = k then l.filter (fun v => key v == k) ++ [x]
      else l.filter (fun v => key v == k) := by
  induction l with
  | nil =>
    unfold insertDesc
    by_cases hk : key x = k <;> simp [hk]
  | cons y ys ih =>
    rw [List.pairwise_cons] at h
    obtain ⟨hy, hys⟩ := h
    unfold insertDesc
    by_cases hk : key x ≤ key y
    · rw [if_pos hk]
      simp only [List.filter_cons]
      rw [ih hys]
      by_cases hxk : key x = k <;> by_cases hyk : key y = k <;> simp [hxk, hyk]
    · rw [if_neg hk]
      have hlt : key y < key x := Nat.lt_of_not_le hk
      by_cases hxk : key x = k
      · have hnil : (y :: ys).filter (fun v => key v == k) = [] := by
          rw [List.filter_eq_nil_iff]
          intro a ha
          rcases List.mem_cons.mp ha with rfl | ha2
          · simp only [beq_iff_eq]
            omega
          · have hle : key a ≤ key y := hy a ha2
            simp only [beq_iff_eq]
            omega
        simp [List.filter_cons, hxk, hnil]
      · simp [List.filter_cons, hxk]

theorem foldl_insertDesc_pairwise (key : String → Nat) :
    ∀ (l acc : List String), acc.Pairwise (fun a b => key b ≤ key a) →
      (l.foldl (fun a x => insertDesc key x a) acc).Pairwise
        (fun a b => key b ≤ key a) := by
  intro l
  induction l with
  | nil => exact fun acc h => h
  | cons x xs ih => exact fun acc h => ih _ (insertDesc_pairwise key x h)

theorem foldl_insertDesc_perm (key : String → Nat) :
    ∀ (l acc : List String),
      (l.foldl (fun a x => insertDesc key x a) acc).Perm (acc ++ l) := by
  intro l
  induction l with
  | nil => intro acc; simp
  | cons x xs ih =>
    intro acc
    have h1 := ih (insertDesc key x acc)
    have h2 : (insertDesc key x acc ++ xs).Perm ((x :: acc) ++ xs) :=
      (insertDesc_perm key x acc).append_right xs
    exact (h1.trans h2).trans List.perm_middle.symm

theorem foldl_insertDesc_filter (key : String → Nat) (k : Nat) :
    ∀ (l acc : List String), acc.Pairwise (fun a b => key b ≤ key a) →
      (l.foldl (fun a x => insertDesc key x a) acc).filter (fun v => key v == k) =
        acc.filter (fun v => key v == k) ++ l.filter (fun v => key v == k) := by
  intro l
  induction l with
  | nil => intro acc _; simp
  | cons x xs ih =>
    intro acc h
    simp only [List.foldl_cons]
    rw [ih _ (insertDesc_pairwise key x h), insertDesc_filter key x k h,
      List.filter_cons]
    by_cases hxk : key x = k <;> simp [hxk]

theorem sortDescBy_perm (key : String → Nat) (l : List String) :
    (sortDescBy key l).Perm l := by
  unfold sortDescBy
  simpa using foldl_insertDesc_perm key l []

theorem sortDescBy_pairwise (key : String → Nat) (l : List String) :
    (sortDescBy key l).Pairwise (fun a b => key b ≤ key a) :=
  foldl_insertDesc_pairwise key l [] List.Pairwise.nil

theorem sortDescBy_stable (key : String → Nat) (l : List String) (k : Nat) :
    (sortDescBy key l).filter (fun v => key v == k) =
      l.filter (fun v => key v == k) := by
  unfold sortDescBy
  simpa using foldl_insertDesc_filter key k l [] List.Pairwise.nil

/-- C8: when truncation is invoked, both ranking modes take the first
`maxTotalNodes` candidate ids of a stable descending sort by the chosen
degree — global mode by the node's adjacency-list length in the entire base
graph, subgraph mode by its endpoint count within the candidate edge set —
where the sorted list is a permutation of the candidates, its degrees are
non-increasing, and ids of equal degree keep their original
insertion/iteration order (stability), so the selection is a deterministic
function of the inputs. -/
theorem truncation_stable_sort :
    ∀ (allLinks clinks : List GraphLink) (ids : List String) (maxTotal : Nat),
      selectTopNodesByDegree allLinks ids maxTotal =
        (sortDescBy (globalDegree allLinks) ids).take maxTotal ∧
      subgraphTopNodes clinks ids maxTotal =
        (sortDescBy (subgraphDegree clinks)
          (ids.filter (fun id =>
            clinks.any (fun l => l.source = id || l.target = id)))).take maxTotal ∧
      ∀ key : String → Nat,
        (sortDescBy key ids).Perm ids ∧
        (sortDescBy key ids).Pairwise (fun a b => key b ≤ key a) ∧
        ∀ k : Nat, (sortDescBy key ids).filter (fun v => key v == k) =
          ids.filter (fun v => key v == k) := by
  intro allLinks clinks ids maxTotal
  refine ⟨rfl, rfl, fun key => ⟨sortDescBy_perm key ids, sortDescBy_pairwise key ids,
    fun k => sortDescBy_stable key ids k⟩⟩

/-! ## Lemmas about the JS `Map` model (`mapInsert` / `nodeMapFor`) -/

theorem mem_mapInsert {m : List (String × GraphNode)} {n : GraphNode}
    {p : String × GraphNode} (hp : p ∈ mapInsert m n) :
    p ∈ m ∨ (p.1 = n.id ∧ p.2 = n) := by
  unfold mapInsert at hp
  split at hp
  · obtain ⟨q, hq, rfl⟩ := List.mem_map.mp hp
    by_cases hq1 : q.1 = n.id
    · right
      simp [hq1]
    · left
      simpa [hq1] using hq
  · rcases List.mem_append.mp hp with h | h
    · exact Or.inl h
    · right
      simp only [List.mem_singleton] at h
      simp [h]

theorem mapInsert_keys_nodup {m : List (String × GraphNode)} {n : GraphNode}
    (h : (m.map Prod.fst).Nodup) : ((mapInsert m n).map Prod.fst).Nodup := by
  unfold mapInsert
  split
  · have hkeys : ((m.map fun p => if p.1 = n.id then (p.1, n) else p).map Prod.fst) =
        m.map Prod.fst := by
      rw [List.map_map]
      apply List.map_congr_left
      intro q _
      by_cases hq : q.1 = n.id <;> simp [hq]
    rw [hkeys]
    exact h
  · rename_i hany
    have hid : n.id ∉ m.map Prod.fst := by
      intro hmem
      obtain ⟨q, hq, hq1⟩ := List.mem_map.mp hmem
      exact hany (List.any_eq_true.mpr ⟨q, hq, by simp [hq1]⟩)
    simp [List.nodup_append, h, hid]

theorem nodeMapFor_inv (ids : List String) :
    ∀ (allNodes : List GraphNode) (m : List (String × GraphNode)),
      (m.map Prod.fst).Nodup →
      (∀ p ∈ m, p.2.id = p.1 ∧ p.1 ∈ ids) →
      ((allNodes.foldl
          (fun m n => if ids.contains n.id then mapInsert m n else m) m).map
            Prod.fst).Nodup ∧
      ∀ p ∈ allNodes.foldl
          (fun m n => if ids.contains n.id then mapInsert m n else m) m,
        p.2.id = p.1 ∧ p.1 ∈ ids ∧ (p ∈ m ∨ p.2 ∈ allNodes) := by
  intro allNodes
  induction allNodes with
  | nil =>
    intro m h1 h2
    refine ⟨h1, fun p hp => ⟨(h2 p hp).1, (h2 p hp).2, Or.inl hp⟩⟩
  | cons n rest ih =>
    intro m h1 h2
    simp only [List.foldl_cons]
    by_cases hc : ids.contains n.id = true
    · rw [if_pos hc]
      have h1' : ((mapInsert m n).map Prod.fst).Nodup := mapInsert_keys_nodup h1
      have h2' : ∀ p ∈ mapInsert m n, p.2.id = p.1 ∧ p.1 ∈ ids := by
        intro p hp
        rcases mem_mapInsert hp with hpm | ⟨hpk, hpv⟩
        · exact h2 p hpm
        · refine ⟨by rw [hpv, hpk], ?_⟩
          rw [hpk]
          exact contains_iff.mp hc
      obtain ⟨hnodup, hmem⟩ := ih (mapInsert m n) h1' h2'
      refine ⟨hnodup, fun p hp => ?_⟩
      obtain ⟨ha, hb, hcc⟩ := hmem p hp
      refine ⟨ha, hb, ?_⟩
      rcases hcc with hpm | hrest
      · rcases mem_mapInsert hpm with hpm2 | ⟨_, hpv⟩
        · exact Or.inl hpm2
        · exact Or.inr (by rw [hpv]; exact List.mem_cons_self n rest)
      · exact Or.inr (List.mem_cons_of_mem n hrest)
    · rw [if_neg hc]
      obtain ⟨hnodup, hmem⟩ := ih m h1 h2
      refine ⟨hnodup, fun p hp => ?_⟩
      obtain ⟨ha, hb, hcc⟩ := hmem p hp
      exact ⟨ha, hb, hcc.imp id (List.mem_cons_of_mem n)⟩

theorem nodeMapFor_keys_nodup (allNodes : List GraphNode) (ids : List String) :
    ((nodeMapFor allNodes ids).map Prod.fst).Nodup :=
  (nodeMapFor_inv ids allNodes [] List.nodup_nil (by simp)).1

theorem mem_nodeMapFor {allNodes : List GraphNode} {ids : List String}
    {p : String × GraphNode} (hp : p ∈ nodeMapFor allNodes ids) :
    p.2.id = p.1 ∧ p.1 ∈ ids ∧ p.2 ∈ allNodes := by
  obtain ⟨ha, hb, hcc⟩ :=
    (nodeMapFor_inv ids allNodes [] List.nodup_nil (by simp)).2 p hp
  exact ⟨ha, hb, hcc.resolve_left (by simp)⟩

theorem nodeMapFor_eq_filter_aux (ids : List String) :
    ∀ (allNodes : List GraphNode) (m : List (String × GraphNode)),
      (allNodes.map (fun n => n.id)).Nodup →
      (∀ p ∈ m, p.1 ∉ allNodes.map (fun n => n.id)) →
      allNodes.foldl (fun m n => if ids.contains n.id then mapInsert m n else m) m =
        m ++ (allNodes.filter (fun n => ids.contains n.id)).map (fun n => (n.id, n)) := by
  intro allNodes
  induction allNodes with
  | nil => intro m _ _; simp
  | cons n rest ih =>
    intro m hnodup hm
    have hmapc : (List.map (fun x : GraphNode => x.id) (n :: rest)) =
        n.id :: List.map (fun x : GraphNode => x.id) rest := rfl
    rw [hmapc, List.nodup_cons] at hnodup
    simp only [List.foldl_cons, List.filter_cons]
    by_cases hc : ids.contains n.id = true
    · rw [if_pos hc]
      have hins : mapInsert m n = m ++ [(n.id, n)] := by
        unfold mapInsert
        rw [if_neg]
        intro hany
        obtain ⟨q, hq, hq1⟩ := List.any_eq_true.mp hany
        exact hm q hq (by simp_all)
      have hm2 : ∀ p ∈ m ++ [(n.id, n)],
          p.1 ∉ List.map (fun x : GraphNode => x.id) rest := by
        intro p hp
        rcases List.mem_append.mp hp with h | h
        · exact fun hmem => hm p h (List.mem_cons_of_mem _ hmem)
        · simp only [List.mem_singleton] at h
          rw [h]
          exact hnodup.1
      rw [hins, ih (m ++ [(n.id, n)]) hnodup.2 hm2, hc]
      simp
    · rw [if_neg hc]
      have hcf : ids.contains n.id = false := Bool.eq_false_iff.mpr hc
      rw [ih m hnodup.2 (fun p hp hmem => hm p hp (List.mem_cons_of_mem _ hmem)), hcf]
      simp

theorem nodeMapFor_eq_filter {allNodes : List GraphNode} {ids : List String}
    (h : (allNodes.map (fun n => n.id)).Nodup) :
    nodeMapFor allNodes ids =
      (allNodes.filter (fun n => ids.contains n.id)).map (fun n => (n.id, n)) := by
  unfold nodeMapFor
  simpa using nodeMapFor_eq_filter_aux ids allNodes [] h (by simp)

/-! ## Pipeline-structure lemmas -/

theorem expandFromSeeds_nil (links : List GraphLink) (depth maxN : Nat)
    (ets : List String) : expandFromSeeds links [] depth maxN ets = [] := by
  unfold expandFromSeeds
  cases depth with
  | zero => rfl
  | succ d => simp [expandLayers, jsSetOf_nil]

theorem nodeMapFor_nil_ids (allNodes : List GraphNode) :
    nodeMapFor allNodes [] = [] := by
  unfold nodeMapFor
  induction allNodes with
  | nil => rfl
  | cons n rest ih =>
    simp only [List.foldl_cons]
    exact ih

theorem connectedIds_empty_of_no_seeds (allNodes : List GraphNode)
    (allLinks : List GraphLink) (st : NetworkBuilderState) (logic : SearchLogic)
    (hact : searchActive st = true) (hseeds : seedIds allNodes st logic = []) :
    connectedIds allNodes allLinks st logic = [] := by
  have hraw : rawCandidates allNodes allLinks st logic = [] := by
    unfold rawCandidates
    rw [if_pos hact]
    split
    · rw [hseeds]
      exact expandFromSeeds_nil allLinks st.expansionDepth st.maxNodesPerExpansion
        st.allowedEdgeTypes
    · rw [hseeds]
      rfl
  have hcand : candidateIds allNodes allLinks st logic = [] := by
    unfold candidateIds
    rw [hraw]
    split <;> simp
  unfold connectedIds
  rw [hcand]
  simp [nodeMapFor_nil_ids, jsSetOf_nil]

theorem resultNodes_map_id (allNodes : List GraphNode) (allLinks : List GraphLink)
    (st : NetworkBuilderState) (logic : SearchLogic) (mode : RankMode) :
    (resultNodes allNodes allLinks st logic mode).map (fun n => n.id) =
      (nodeMapFor allNodes (finalIds allNodes allLinks st logic mode)).map
        Prod.fst := by
  unfold resultNodes
  simp only [List.map_map]
  apply List.map_congr_left
  intro p hp
  exact (mem_nodeMapFor hp).1

theorem resultNodes_length (allNodes : List GraphNode) (allLinks : List GraphLink)
    (st : NetworkBuilderState) (logic : SearchLogic) (mode : RankMode) :
    (resultNodes allNodes allLinks st logic mode).length =
      (nodeMapFor allNodes (finalIds allNodes allLinks st logic mode)).length := by
  unfold resultNodes
  simp

theorem finalIds_subset (allNodes : List GraphNode) (allLinks : List GraphLink)
    (st : NetworkBuilderState) (logic : SearchLogic) (mode : RankMode) :
    ∀ id ∈ finalIds allNodes allLinks st logic mode,
      id ∈ connectedIds allNodes allLinks st logic := by
  intro id hid
  simp only [finalIds] at hid
  by_cases hgt : (connectedIds allNodes allLinks st logic).length > st.maxTotalNodes
  · rw [if_pos hgt] at hid
    cases mode with
    | subgraph =>
      simp only [subgraphTopNodes] at hid
      have h1 := List.take_subset _ _ hid
      have h2 := (sortDescBy_perm _ _).mem_iff.mp h1
      exact (List.mem_filter.mp h2).1
    | global =>
      simp only [selectTopNodesByDegree] at hid
      have h1 := List.take_subset _ _ hid
      exact (sortDescBy_perm _ _).mem_iff.mp h1
  · rw [if_neg hgt] at hid
    exact hid

theorem finalIds_length_le (allNodes : List GraphNode) (allLinks : List GraphLink)
    (st : NetworkBuilderState) (logic : SearchLogic) (mode : RankMode) :
    (finalIds allNodes allLinks st logic mode).length ≤
      (connectedIds allNodes allLinks st logic).length := by
  simp only [finalIds]
  by_cases hgt : (connectedIds allNodes allLinks st logic).length > st.maxTotalNodes
  · rw [if_pos hgt]
    have hle : st.maxTotalNodes ≤ (connectedIds allNodes allLinks st logic).length :=
      Nat.le_of_lt hgt
    cases mode with
    | subgraph =>
      exact Nat.le_trans (List.length_take_le _ _) hle
    | global =>
      exact Nat.le_trans (List.length_take_le _ _) hle
  · rw [if_neg hgt]

theorem connectedIds_subset (allNodes : List GraphNode) (allLinks : List GraphLink)
    (st : NetworkBuilderState) (logic : SearchLogic) :
    ∀ id ∈ connectedIds allNodes allLinks st logic,
      id ∈ candidateIds allNodes allLinks st logic := by
  intro id hid
  unfold connectedIds at hid
  rw [mem_jsSetOf] at hid
  obtain ⟨nd, hnd, rfl⟩ := List.mem_map.mp hid
  obtain ⟨hnd1, _⟩ := List.mem_filter.mp hnd
  obtain ⟨p, hp, rfl⟩ := List.mem_map.mp hnd1
  obtain ⟨ha, hb, _⟩ := mem_nodeMapFor hp
  rw [ha]
  exact hb

/-! ## C9 — `matchedCount` / `truncated` invariants -/

/-- C9: for every query, `matchedCount` equals the size of the connected
candidate set before the node budget, the number of returned nodes never
exceeds `matchedCount`, and `truncated` is true iff `matchedCount` exceeds
`maxTotalNodes`. -/
theorem buildNetwork_count_invariants :
    ∀ (allNodes : List GraphNode) (allLinks : List GraphLink)
      (st : NetworkBuilderState) (logic : SearchLogic) (mode : RankMode),
      (buildNetwork allNodes allLinks st logic mode).1.matchedCount =
        (connectedIds allNodes allLinks st logic).length ∧
      (buildNetwork allNodes allLinks st logic mode).1.nodes.length ≤
        (buildNetwork allNodes allLinks st logic mode).1.matchedCount ∧
      ((buildNetwork allNodes allLinks st logic mode).1.truncated = true ↔
        (buildNetwork allNodes allLinks st logic mode).1.matchedCount >
          st.maxTotalNodes) := by
  intro allNodes allLinks st logic mode
  unfold buildNetwork
  by_cases hcond : (searchActive st && (seedIds allNodes st logic).isEmpty) = true
  · rw [if_pos hcond]
    rw [Bool.and_eq_true] at hcond
    obtain ⟨hact, hse⟩ := hcond
    have hseeds : seedIds allNodes st logic = [] := by
      cases h : seedIds allNodes st logic with
      | nil => rfl
      | cons a l => rw [h] at hse; simp at hse
    have hconn := connectedIds_empty_of_no_seeds allNodes allLinks st logic hact hseeds
    refine ⟨?_, ?_, ?_⟩ <;> simp [hconn]
  · rw [if_neg hcond]
    refine ⟨rfl, ?_, ?_⟩
    · show (resultNodes allNodes allLinks st logic mode).length ≤
        (connectedIds allNodes allLinks st logic).length
      rw [resultNodes_length]
      have hlen : (nodeMapFor allNodes (finalIds allNodes allLinks st logic mode)).length =
          ((nodeMapFor allNodes (finalIds allNodes allLinks st logic mode)).map
            Prod.fst).length := by simp
      rw [hlen]
      have hnodup := nodeMapFor_keys_nodup allNodes (finalIds allNodes allLinks st logic mode)
      have hsub : ∀ k ∈ (nodeMapFor allNodes
          (finalIds allNodes allLinks st logic mode)).map Prod.fst,
          k ∈ finalIds allNodes allLinks st logic mode := by
        intro k hk
        obtain ⟨p, hp, rfl⟩ := List.mem_map.mp hk
        exact (mem_nodeMapFor hp).2.1
      have h1 : ((nodeMapFor allNodes (finalIds allNodes allLinks st logic mode)).map
          Prod.fst).length ≤ (finalIds allNodes allLinks st logic mode).length := by
        rw [← List.toFinset_card_of_nodup hnodup]
        refine Nat.le_trans (Finset.card_le_card ?_)
          (List.toFinset_card_le (finalIds allNodes allLinks st logic mode))
        intro x hx
        rw [List.mem_toFinset] at hx ⊢
        exact hsub x hx
      exact Nat.le_trans h1 (finalIds_length_le allNodes allLinks st logic mode)
    · show decide ((connectedIds allNodes allLinks st logic).length > st.maxTotalNodes)
          = true ↔ _
      simp

/-! ## C10 — node list uniqueness and base-graph order -/

/-- C10: the node list of the result contains each id at most once, and (for a
base graph whose node ids are unique) lists nodes in the order of the base
node list — the id sequence of the result is a sublist of the base-graph id
sequence — never in ranking or discovery order, including after degree-ranked
truncation. -/
theorem buildNetwork_nodes_unique_base_order :
    ∀ (allNodes : List GraphNode) (allLinks : List GraphLink)
      (st : NetworkBuilderState) (logic : SearchLogic) (mode : RankMode),
      ((buildNetwork allNodes allLinks st logic mode).1.nodes.map
        (fun n => n.id)).Nodup ∧
      ((allNodes.map (fun n => n.id)).Nodup →
        ((buildNetwork allNodes allLinks st logic mode).1.nodes.map
          (fun n => n.id)).Sublist (allNodes.map (fun n => n.id))) := by
  intro allNodes allLinks st logic mode
  unfold buildNetwork
  by_cases hcond : (searchActive st && (seedIds allNodes st logic).isEmpty) = true
  · rw [if_pos hcond]
    exact ⟨List.nodup_nil, fun _ => List.nil_sublist _⟩
  · rw [if_neg hcond]
    constructor
    · show ((resultNodes allNodes allLinks st logic mode).map (fun n => n.id)).Nodup
      rw [resultNodes_map_id]
      exact nodeMapFor_keys_nodup allNodes _
    · intro h
      show ((resultNodes allNodes allLinks st logic mode).map (fun n => n.id)).Sublist
        (allNodes.map (fun n => n.id))
      rw [resultNodes_map_id, nodeMapFor_eq_filter h, List.map_map]
      exact List.Sublist.map _ (List.filter_sublist _)

/-- Witness for `buildNetwork_nodes_unique_base_order` on the fixture graph. -/
theorem buildNetwork_nodes_unique_base_order_witness :
    ((buildNetwork baseNodes baseLinks stDepth0 SearchLogic.OR
        RankMode.global).1.nodes.map (fun n => n.id)).Sublist
      (baseNodes.map (fun n => n.id)) :=
  (buildNetwork_nodes_unique_base_order baseNodes baseLinks stDepth0
    SearchLogic.OR RankMode.global).2 (by decide)

/-! ## C3 — depth-0 queries with empty `allowedEdgeTypes` -/

theorem mem_seedIds_exists {allNodes : List GraphNode} {st : NetworkBuilderState}
    {logic : SearchLogic} {id : String} (h : id ∈ seedIds allNodes st logic) :
    ∃ n ∈ allNodes, n.id = id := by
  simp only [seedIds, searchNodes] at h
  rw [mem_jsSetOf] at h
  obtain ⟨n, hn, rfl⟩ := List.mem_map.mp h
  exact ⟨n, (List.mem_filter.mp hn).1, rfl⟩

theorem rawCandidates_depth0 (allNodes : List GraphNode) (allLinks : List GraphLink)
    (st : NetworkBuilderState) (logic : SearchLogic)
    (hact : searchActive st = true) (hdep : st.expansionDepth = 0) :
    rawCandidates allNodes allLinks st logic = jsSetOf (seedIds allNodes st logic) := by
  unfold rawCandidates
  rw [if_pos hact, hdep]
  simp

theorem candidateIds_depth0_subset (allNodes : List GraphNode)
    (allLinks : List GraphLink) (st : NetworkBuilderState) (logic : SearchLogic)
    (hact : searchActive st = true) (hdep : st.expansionDepth = 0) :
    ∀ id ∈ candidateIds allNodes allLinks st logic,
      id ∈ filteredSeeds allNodes st logic := by
  intro id hid
  have hraw0 := rawCandidates_depth0 allNodes allLinks st logic hact hdep
  simp only [candidateIds] at hid
  split at hid
  · rw [hraw0] at hid
    obtain ⟨hmem, hpred⟩ := List.mem_filter.mp hid
    have hseed : id ∈ seedIds allNodes st logic := mem_jsSetOf.mp hmem
    rw [Bool.or_eq_true] at hpred
    rcases hpred with hp | hp
    · exact contains_iff.mp hp
    · exfalso
      rw [Bool.not_eq_true'] at hp
      have hct := contains_iff.mpr hseed
      rw [hp] at hct
      exact Bool.false_ne_true hct
  · rename_i hcondf
    rw [hraw0] at hid
    have hseed : id ∈ seedIds allNodes st logic := mem_jsSetOf.mp hid
    by_cases ht : st.allowedNodeTypes = []
    · by_cases hc2 : st.allowedCategories = []
      · obtain ⟨n, hn, hnid⟩ := mem_seedIds_exists hseed
        obtain ⟨nd, hfind⟩ : ∃ nd, allNodes.find? (fun n => n.id = id) = some nd := by
          rw [← Option.isSome_iff_exists]
          exact List.find?_isSome.mpr ⟨n, hn, by simp [hnid]⟩
        have hpass : seedPassesFilter allNodes st id = true := by
          unfold seedPassesFilter
          rw [hfind, ht, hc2]
          rfl
        exact List.mem_filter.mpr ⟨hseed, hpass⟩
      · exfalso
        apply hcondf
        rw [Bool.and_eq_true]
        refine ⟨hact, ?_⟩
        rw [Bool.or_eq_true]
        right
        obtain ⟨c, cs, hcc⟩ := List.exists_cons_of_ne_nil hc2
        simp [hcc]
    · exfalso
      apply hcondf
      rw [Bool.and_eq_true]
      refine ⟨hact, ?_⟩
      rw [Bool.or_eq_true]
      left
      obtain ⟨t, ts, htt⟩ := List.exists_cons_of_ne_nil ht
      simp [htt]

/-- C3 counterexample: on the fixture graph the query `stDepth0` has empty
`allowedEdgeTypes` and `expansionDepth = 0`, both seeds `A` and `B` survive,
and yet the returned edge list is `[A — B]`, not empty: there is no
"disconnected nodes" special case — an empty `allowedEdgeTypes` admits every
edge and isolate removal runs as usual. -/
theorem buildNetwork_depth0_returns_edges :
    stDepth0.allowedEdgeTypes = [] ∧ stDepth0.expansionDepth = 0 ∧
    (buildNetwork baseNodes baseLinks stDepth0 SearchLogic.OR
        RankMode.global).1.links =
      [{ source := "A", target := "B", edge_type := "belongs_to" }] ∧
    (buildNetwork baseNodes baseLinks stDepth0 SearchLogic.OR
        RankMode.global).1.links ≠ [] := by
  refine ⟨rfl, rfl, by decide, by decide⟩

/-- C3 (amended): a query with empty `allowedEdgeTypes` and
`expansionDepth = 0` is *not* special-cased: the empty edge-type list means
all edge types are allowed, the pipeline runs isolate removal as usual, and —
because the candidates are exactly the (filtered) seeds at depth 0 — every
node of the result is a filtered seed. -/
theorem buildNetwork_depth0_nodes_are_filtered_seeds :
    ∀ (allNodes : List GraphNode) (allLinks : List GraphLink)
      (st : NetworkBuilderState) (logic : SearchLogic) (mode : RankMode),
      searchActive st = true → st.expansionDepth = 0 → st.allowedEdgeTypes = [] →
      ((buildNetwork allNodes allLinks st logic mode).1.nodes.all
        (fun n => (filteredSeeds allNodes st logic).contains n.id)) = true := by
  intro allNodes allLinks st logic mode hact hdep _
  unfold buildNetwork
  by_cases hcond : (searchActive st && (seedIds allNodes st logic).isEmpty) = true
  · rw [if_pos hcond]
    rfl
  · rw [if_neg hcond]
    show ((resultNodes allNodes allLinks st logic mode).all
      (fun n => (filteredSeeds allNodes st logic).contains n.id)) = true
    rw [List.all_eq_true]
    intro n hn
    have hid : n.id ∈ finalIds allNodes allLinks st logic mode := by
      have hmm : n.id ∈ (resultNodes allNodes allLinks st logic mode).map
          (fun x => x.id) := List.mem_map_of_mem _ hn
      rw [resultNodes_map_id] at hmm
      obtain ⟨p, hp, hpeq⟩ := List.mem_map.mp hmm
      rw [← hpeq]
      exact (mem_nodeMapFor hp).2.1
    have h2 := finalIds_subset allNodes allLinks st logic mode n.id hid
    have h3 := connectedIds_subset allNodes allLinks st logic n.id h2
    have h4 := candidateIds_depth0_subset allNodes allLinks st logic hact hdep n.id h3
    exact contains_iff.mpr h4

/-- Witness for `buildNetwork_depth0_nodes_are_filtered_seeds` on the fixture
graph and the depth-0 query. -/
theorem buildNetwork_depth0_nodes_are_filtered_seeds_witness :
    ((buildNetwork baseNodes baseLinks stDepth0 SearchLogic.OR
        RankMode.global).1.nodes.all
      (fun n => (filteredSeeds baseNodes stDepth0 SearchLogic.OR).contains n.id)) =
      true :=
  buildNetwork_depth0_nodes_are_filtered_seeds baseNodes baseLinks stDepth0
    SearchLogic.OR RankMode.global rfl rfl rfl

/-! ## C4 — the attribute filter touches seeds only -/

theorem seedPassesFilter_iff {allNodes : List GraphNode}
    {st : NetworkBuilderState} {id : String}
    (h : (allNodes.map (fun n => n.id)).Nodup) :
    seedPassesFilter allNodes st id = true ↔
      ∃ n ∈ allNodes, n.id = id ∧
        passesAttributes n st.allowedNodeTypes st.allowedCategories = true := by
  unfold seedPassesFilter
  cases hfind : allNodes.find? (fun n => n.id = id) with
  | none =>
    simp only [Bool.false_eq_true, false_iff]
    rintro ⟨n, hn, hnid, _⟩
    have hsome : (allNodes.find? (fun n => decide (n.id = id))).isSome :=
      List.find?_isSome.mpr ⟨n, hn, by simp [hnid]⟩
    rw [hfind] at hsome
    simp at hsome
  | some nd =>
    have hmem := List.mem_of_find?_eq_some hfind
    have hid2 : nd.id = id := by
      have := List.find?_some hfind
      simpa using this
    constructor
    · intro hp
      exact ⟨nd, hmem, hid2, hp⟩
    · rintro ⟨n, hn, hnid, hp⟩
      have heq : n = nd :=
        List.inj_on_of_nodup_map h hn hmem (by rw [hnid, hid2])
      rwa [← heq]

/-- C4 counterexample: for the query `stSeedsFail` every seed (only `A`)
fails the node-type filter, `filteredSeeds = ∅`, and yet `buildNetwork`
returns the two purely-expanded nodes `B` and `C` — not an empty Result. -/
theorem buildNetwork_all_seeds_fail_nonempty :
    filteredSeeds baseNodes stSeedsFail SearchLogic.OR = [] ∧
    (buildNetwork baseNodes baseLinks stSeedsFail SearchLogic.OR
        RankMode.global).1.nodes.map (fun n => n.id) = ["B", "C"] ∧
    (buildNetwork baseNodes baseLinks stSeedsFail SearchLogic.OR
        RankMode.global).1.nodes ≠ [] := by
  refine ⟨by decide, by decide, by decide⟩

/-- C4 (amended): when a search is active and at least one allow-list is
non-empty, the attribute filter is applied to the seed nodes only — a
candidate survives iff it is not a seed at all (purely-expanded nodes are
never filtered) or it is a seed whose node passes the type/category
allow-lists; when every seed fails, the surviving candidates are exactly the
purely-expanded ids, so the Result need not be empty. -/
theorem candidateIds_filter_seeds_only :
    ∀ (allNodes : List GraphNode) (allLinks : List GraphLink)
      (st : NetworkBuilderState) (logic : SearchLogic),
      searchActive st = true →
      (st.allowedNodeTypes ≠ [] ∨ st.allowedCategories ≠ []) →
      (allNodes.map (fun n => n.id)).Nodup →
      ∀ id, (id ∈ candidateIds allNodes allLinks st logic ↔
        id ∈ rawCandidates allNodes allLinks st logic ∧
          (id ∉ seedIds allNodes st logic ∨
            ∃ n ∈ allNodes, n.id = id ∧
              (st.allowedNodeTypes = [] ∨ n.node_type ∈ st.allowedNodeTypes) ∧
              (st.allowedCategories = [] ∨
                ∃ c, n.category = some c ∧ c ∈ st.allowedCategories))) := by
  intro allNodes allLinks st logic hact hfil hnodup id
  have hcond : (searchActive st &&
      (!st.allowedNodeTypes.isEmpty || !st.allowedCategories.isEmpty)) = true := by
    rw [Bool.and_eq_true]
    refine ⟨hact, ?_⟩
    rw [Bool.or_eq_true]
    rcases hfil with h | h
    · left
      obtain ⟨t, ts, htt⟩ := List.exists_cons_of_ne_nil h
      simp [htt]
    · right
      obtain ⟨c, cs, hcc⟩ := List.exists_cons_of_ne_nil h
      simp [hcc]
  simp only [candidateIds]
  rw [if_pos hcond, List.mem_filter]
  constructor
  · rintro ⟨hraw, hpred⟩
    refine ⟨hraw, ?_⟩
    rw [Bool.or_eq_true] at hpred
    rcases hpred with hp | hp
    · obtain ⟨hseed, hpass⟩ := List.mem_filter.mp (contains_iff.mp hp)
      right
      obtain ⟨n, hn, hnid, hp2⟩ := (seedPassesFilter_iff hnodup).mp hpass
      exact ⟨n, hn, hnid, passesAttributes_iff.mp hp2⟩
    · left
      rw [Bool.not_eq_true'] at hp
      intro hseed
      have hct := contains_iff.mpr hseed
      rw [hp] at hct
      exact Bool.false_ne_true hct
  · rintro ⟨hraw, hrest⟩
    refine ⟨hraw, ?_⟩
    rw [Bool.or_eq_true]
    by_cases hseed : id ∈ seedIds allNodes st logic
    · left
      apply contains_iff.mpr
      apply List.mem_filter.mpr
      refine ⟨hseed, ?_⟩
      rcases hrest with hnot | ⟨n, hn, hnid, hp1, hp2⟩
      · exact absurd hseed hnot
      · exact (seedPassesFilter_iff hnodup).mpr
          ⟨n, hn, hnid, passesAttributes_iff.mpr ⟨hp1, hp2⟩⟩
    · right
      have hcf : (seedIds allNodes st logic).contains id = false := by
        rw [Bool.eq_false_iff]
        intro hc
        exact hseed (contains_iff.mp hc)
      rw [hcf]
      rfl

/-- Witness for `candidateIds_filter_seeds_only` at the purely-expanded node
`B` of the fixture query whose only seed fails the filter. -/
theorem candidateIds_filter_seeds_only_witness :
    "B" ∈ candidateIds baseNodes baseLinks stSeedsFail SearchLogic.OR ↔
      "B" ∈ rawCandidates baseNodes baseLinks stSeedsFail SearchLogic.OR ∧
        ("B" ∉ seedIds baseNodes stSeedsFail SearchLogic.OR ∨
          ∃ n ∈ baseNodes, n.id = "B" ∧
            (stSeedsFail.allowedNodeTypes = [] ∨
              n.node_type ∈ stSeedsFail.allowedNodeTypes) ∧
            (stSeedsFail.allowedCategories = [] ∨
              ∃ c, n.category = some c ∧ c ∈ stSeedsFail.allowedCategories)) :=
  candidateIds_filter_seeds_only baseNodes baseLinks stSeedsFail SearchLogic.OR
    rfl (Or.inl (by decide)) (by decide) "B"

/-! ## C5 — what `buildNetwork` mutates -/

theorem resultNodes_core_origin {allNodes : List GraphNode}
    {allLinks : List GraphLink} {st : NetworkBuilderState} {logic : SearchLogic}
    {mode : RankMode} :
    ∀ u ∈ resultNodes allNodes allLinks st logic mode,
      ∃ m ∈ allNodes, m.id = u.id ∧ coreFields u = coreFields m := by
  intro u hu
  simp only [resultNodes, List.map_map, List.mem_map] at hu
  obtain ⟨p, hp, rfl⟩ := hu
  obtain ⟨_, _, hmem⟩ := mem_nodeMapFor hp
  exact ⟨p.2, hmem, rfl, rfl⟩

theorem updateNodes_map_core (updated : List GraphNode) :
    ∀ (base : List GraphNode),
      (∀ nb ∈ base, ∀ u ∈ updated, u.id = nb.id → coreFields u = coreFields nb) →
      (updateNodes updated base).map coreFields = base.map coreFields := by
  intro base
  induction base with
  | nil => intro _; rfl
  | cons nb rest ih =>
    intro h
    unfold updateNodes
    simp only [List.map_cons]
    congr 1
    · split
      · rfl
      · cases hfind : updated.find? (fun u => u.id = nb.id) with
        | none => rfl
        | some u =>
          have hmem := List.mem_of_find?_eq_some hfind
          have hueq : u.id = nb.id := by
            have := List.find?_some hfind
            simpa using this
          exact h nb (List.mem_cons_self _ _) u hmem hueq
    · exact ih (fun nb2 h2 => h nb2 (List.mem_cons_of_mem _ h2))

/-- C5 counterexample: `buildNetwork` *does* mutate the base-graph nodes: on
the fixture depth-0 query the display field `val` of the returned nodes `A`
and `B` — aliases into the base node array — changes from `none` to
`some 1`. -/
theorem buildNetwork_mutates_nodes :
    (buildNetwork baseNodes baseLinks stDepth0 SearchLogic.OR
        RankMode.global).2 ≠ baseNodes ∧
    ((buildNetwork baseNodes baseLinks stDepth0 SearchLogic.OR
        RankMode.global).2.map (fun n => n.val)) = [some 1, some 1, none] ∧
    baseNodes.map (fun n => n.val) = [none, none, none] := by
  refine ⟨by decide, by decide, by decide⟩

/-- C5 (amended): `buildNetwork` mutates only the runtime display fields
(`val`, `totalVal`, `color`, `baseColor`) of the nodes it returns; for a base
graph with unique node ids, every other field of every node — id, name,
type, category and all searchable text fields — is unchanged after the call,
and nodes outside the result are untouched. -/
theorem buildNetwork_mutates_only_display_fields :
    ∀ (allNodes : List GraphNode) (allLinks : List GraphLink)
      (st : NetworkBuilderState) (logic : SearchLogic) (mode : RankMode),
      (allNodes.map (fun n => n.id)).Nodup →
      ((buildNetwork allNodes allLinks st logic mode).2.map coreFields) =
        allNodes.map coreFields := by
  intro allNodes allLinks st logic mode hnodup
  unfold buildNetwork
  by_cases hcond : (searchActive st && (seedIds allNodes st logic).isEmpty) = true
  · rw [if_pos hcond]
  · rw [if_neg hcond]
    show (updateNodes (resultNodes allNodes allLinks st logic mode) allNodes).map
        coreFields = allNodes.map coreFields
    apply updateNodes_map_core
    intro nb hnb u hu hid
    obtain ⟨m, hm, hmid, hcore⟩ := resultNodes_core_origin u hu
    have heq : m = nb :=
      List.inj_on_of_nodup_map hnodup hm hnb (by rw [hmid, hid])
    rw [hcore, heq]

/-- Witness for `buildNetwork_mutates_only_display_fields` on the fixture. -/
theorem buildNetwork_mutates_only_display_fields_witness :
    ((buildNetwork baseNodes baseLinks stDepth0 SearchLogic.OR
        RankMode.global).2.map coreFields) = baseNodes.map coreFields :=
  buildNetwork_mutates_only_display_fields baseNodes baseLinks stDepth0
    SearchLogic.OR RankMode.global (by decide)

end NetworkBuilder
